import Mathlib

/-!
A verification development for the embedded log store of the `convex-panel`
desktop application (`src/apps/desktop/src-tauri/src/log_store/`).

The SQLite-backed store is shallowly embedded: the `logs` table is a
`List LogRow`, the `settings` table a `List (String × String)`, and each
Tauri command is a Lean function over those states.  Machine integers
(`i64`, `i32`, `usize`) are modelled as `Int`/`Nat` with explicit `% 2^w`
where wrap-around matters.  The shared `Arc<Mutex<Connection>>` is modelled
by a `LockState`; `lock()` either yields the connection or reports the
poisoned-lock error, and `unwrap()` on the poisoned case is a panic,
modelled by `PanicResult.panicked`.
-/

/-- Model of `models.rs` `LogEntry`, a row of the `logs` table as stored in SQLite. -/
structure LogRow where
  id : String
  ts : Int
  deployment : String
  request_id : Option String
  execution_id : Option String
  topic : Option String
  level : Option String
  function_path : Option String
  function_name : Option String
  udf_type : Option String
  success : Option Bool
  duration_ms : Option Int
  message : String
  json_blob : String
  created_at : Int
deriving DecidableEq, Repr

/-- Model of `models.rs` `IngestLogEntry`, an incoming raw event (pre-processing).
`raw` is `Option<serde_json::Value>` in the source; it is modelled here by
its serialized JSON text, which is all the pipeline ever uses it for. -/
structure IngestLogEntry where
  id : String
  timestamp : Int
  function_identifier : Option String
  function_name : Option String
  udf_type : Option String
  request_id : Option String
  execution_id : Option String
  success : Option Bool
  duration_ms : Option Int
  error : Option String
  log_lines : Option (List String)
  raw : Option String
deriving DecidableEq, Repr

/-- Model of `models.rs` `LogFilters`. -/
structure LogFilters where
  deployment : Option String
  start_ts : Option Int
  end_ts : Option Int
  levels : Option (List String)
  topics : Option (List String)
  function_path : Option String
  request_id : Option String
  success : Option Bool
deriving DecidableEq, Repr

/-- The all-`none` filter set (`LogFilters::default()`). -/
def LogFilters.none : LogFilters :=
  ⟨Option.none, Option.none, Option.none, Option.none, Option.none,
   Option.none, Option.none, Option.none⟩

/-- Model of `models.rs` `LogQueryResult`. -/
structure LogQueryResult where
  logs : List LogRow
  total_count : Int
  has_more : Bool
  cursor : Option String
deriving DecidableEq, Repr

/-- Model of `models.rs` `IngestResult`. -/
structure IngestResult where
  inserted : Nat
  duplicates : Nat
  errors : Nat
deriving DecidableEq, Repr

/-- Model of `models.rs` `LogStoreSettings`. -/
structure LogStoreSettings where
  retention_days : Int
  enabled : Bool
deriving DecidableEq, Repr

/-! ### Byte-level helpers

Rust strings are UTF-8; `str::as_bytes` is modelled by `strBytes`.
Bytes are `Nat`s below 256. -/

/-- UTF-8 encoding of one scalar value (`char` in Rust). -/
def utf8Bytes (c : Char) : List Nat :=
  let n := c.toNat
  if n < 128 then [n]
  else if n < 2048 then [192 + n / 64, 128 + n % 64]
  else if n < 65536 then [224 + n / 4096, 128 + (n / 64) % 64, 128 + n % 64]
  else [240 + n / 262144, 128 + (n / 4096) % 64, 128 + (n / 64) % 64, 128 + n % 64]

/-- Model of `str::as_bytes`: the UTF-8 bytes of a string. -/
def strBytes (s : String) : List Nat :=
  s.data.foldr (fun c acc => utf8Bytes c ++ acc) []

/-- Model of `i64::to_le_bytes`: 8 little-endian bytes of the twos-complement value. -/
def i64LeBytes (n : Int) : List Nat :=
  let m := (n % 18446744073709551616).toNat
  [m % 256, m / 256 % 256, m / 65536 % 256, m / 16777216 % 256,
   m / 4294967296 % 256, m / 1099511627776 % 256,
   m / 281474976710656 % 256, m / 72057594037927936 % 256]

/-! ### SHA-256 (the `sha2` crate digest used by `compute_log_id`)

A faithful executable embedding of SHA-256 over byte lists; 32-bit words
are `Nat`s reduced `% 2^32`.  No proof in this file depends on properties
of the compression function, only on the digest being a function of its
input byte string. -/

/-- Rotate a 32-bit word right by `n` bits. -/
def rotr32 (x n : Nat) : Nat :=
  ((x >>> n) ||| (x <<< (32 - n))) % 4294967296

/-- The 64 SHA-256 round constants. -/
def sha256k : List Nat :=
  [1116352408, 1899447441, 3049323471, 3921009573, 961987163,
   1508970993, 2453635748, 2870763221, 3624381080, 310598401,
   607225278, 1426881987, 1925078388, 2162078206, 2614888103,
   3248222580, 3835390401, 4022224774, 264347078, 604807628,
   770255983, 1249150122, 1555081692, 1996064986, 2554220882,
   2821834349, 2952996808, 3210313671, 3336571891, 3584528711,
   113926993, 338241895, 666307205, 773529912, 1294757372,
   1396182291, 1695183700, 1986661051, 2177026350, 2456956037,
   2730485921, 2820302411, 3259730800, 3345764771, 3516065817,
   3600352804, 4094571909, 275423344, 430227734, 506948616,
   659060556, 883997877, 958139571, 1322822218, 1537002063,
   1747873779, 1955562222, 2024104815, 2227730452, 2361852424,
   2428436474, 2756734187, 3204031479, 3329325298]

/-- The initial SHA-256 hash state. -/
def sha256init : List Nat :=
  [1779033703, 3144134277, 1013904242, 2773480762,
   1359893119, 2600822924, 528734635, 1541459225]

/-- Big-endian 64-bit byte encoding (for the length suffix of the padding). -/
def be64 (n : Nat) : List Nat :=
  [n / 72057594037927936 % 256, n / 281474976710656 % 256,
   n / 1099511627776 % 256, n / 4294967296 % 256,
   n / 16777216 % 256, n / 65536 % 256, n / 256 % 256, n % 256]

/-- Group bytes into 64-byte chunks (fuel-driven structural recursion). -/
def chunks64 : Nat → List Nat → List (List Nat)
  | 0, _ => []
  | _ + 1, [] => []
  | fuel + 1, l => l.take 64 :: chunks64 fuel (l.drop 64)

/-- Decode the bytes of a chunk into big-endian 32-bit words. -/
def be32Words : List Nat → List Nat
  | b0 :: b1 :: b2 :: b3 :: rest =>
      (b0 * 16777216 + b1 * 65536 + b2 * 256 + b3) :: be32Words rest
  | _ => []

/-- Extend the 16-word message block to the 64-word schedule. -/
def sha256Extend : Nat → List Nat → List Nat
  | 0, w => w
  | fuel + 1, w =>
    let i := w.length
    let x15 := w.getD (i - 15) 0
    let x2 := w.getD (i - 2) 0
    let s0 := (rotr32 x15 7) ^^^ (rotr32 x15 18) ^^^ (x15 >>> 3)
    let s1 := (rotr32 x2 17) ^^^ (rotr32 x2 19) ^^^ (x2 >>> 10)
    sha256Extend fuel (w ++ [(w.getD (i - 16) 0 + s0 + w.getD (i - 7) 0 + s1) % 4294967296])

/-- One round of the SHA-256 compression function. -/
def sha256Round (st : List Nat) (kw : Nat × Nat) : List Nat :=
  match st with
  | [a, b, c, d, e, f, g, h] =>
    let s1 := (rotr32 e 6) ^^^ (rotr32 e 11) ^^^ (rotr32 e 25)
    let ch := (e &&& f) ^^^ ((e ^^^ 4294967295) &&& g)
    let t1 := (h + s1 + ch + kw.1 + kw.2) % 4294967296
    let s0 := (rotr32 a 2) ^^^ (rotr32 a 13) ^^^ (rotr32 a 22)
    let mj := (a &&& b) ^^^ (a &&& c) ^^^ (b &&& c)
    let t2 := (s0 + mj) % 4294967296
    [(t1 + t2) % 4294967296, a, b, c, (d + t1) % 4294967296, e, f, g]
  | other => other

/-- Process one 64-byte chunk, updating the running hash state. -/
def sha256Chunk (h : List Nat) (chunk : List Nat) : List Nat :=
  let w := sha256Extend 48 (be32Words chunk)
  let st := (sha256k.zip w).foldl sha256Round h
  (h.zip st).map (fun p => (p.1 + p.2) % 4294967296)

/-- SHA-256 digest of a byte string, as 32 bytes. -/
def sha256 (msg : List Nat) : List Nat :=
  let padLen := (64 + 56 - ((msg.length + 1) % 64)) % 64
  let padded := msg ++ [128] ++ List.replicate padLen 0 ++ be64 (8 * msg.length)
  let hs := (chunks64 padded.length padded).foldl sha256Chunk sha256init
  hs.foldr (fun w acc =>
    [w / 16777216 % 256, w / 65536 % 256, w / 256 % 256, w % 256] ++ acc) []

/-- Lowercase hex rendering of one byte (the encoding of the `hex` crate). -/
def hexByte (b : Nat) : String :=
  String.mk [Nat.digitChar (b / 16), Nat.digitChar (b % 16)]

/-- Model of `hex::encode` of a SHA-256 digest of a byte string. -/
def sha256hex (msg : List Nat) : String :=
  String.join ((sha256 msg).map hexByte)

/-! ### `utils.rs` -/

/-- The exact byte string `compute_log_id` feeds to the hasher:
order-sensitive concatenation, absent optional fields contributing
nothing. -/
def logIdInput (ts : Int) (deployment : String) (request_id : Option String)
    (function_path : Option String) (level : Option String) (message : String) : List Nat :=
  i64LeBytes ts ++ strBytes deployment
    ++ (match request_id with | some r => strBytes r | none => [])
    ++ (match function_path with | some fp => strBytes fp | none => [])
    ++ (match level with | some lvl => strBytes lvl | none => [])
    ++ strBytes message

/-- Model of `utils.rs` `compute_log_id`: hex-encoded SHA-256 of the key properties. -/
def compute_log_id (ts : Int) (deployment : String) (request_id : Option String)
    (function_path : Option String) (level : Option String) (message : String) : String :=
  sha256hex (logIdInput ts deployment request_id function_path level message)

/-- A single-quote character, written by code point to keep string
literals free of quote characters. -/
def squote : String :=
  String.mk [Char.ofNat 39]

/-- The function-name fallback branch of `extract_message` (reached when
there is no error text and no non-empty log lines); the summaries are the
source format strings with the quotes spelled via `squote`. -/
def extractMessageFn (e : IngestLogEntry) : String :=
  match e.function_name with
  | some name =>
      if e.success.getD true then "Function " ++ squote ++ name ++ squote ++ " executed"
      else "Function " ++ squote ++ name ++ squote ++ " failed"
  | none => "Log entry"

/-- Model of `utils.rs` `extract_message`: error text, else joined log lines, else a
function-name summary, else the literal fallback. -/
def extract_message (e : IngestLogEntry) : String :=
  match e.error with
  | some err => "Error: " ++ err
  | none =>
    match e.log_lines with
    | some lines => if lines.isEmpty then extractMessageFn e
                    else String.intercalate " | " lines
    | none => extractMessageFn e

/-- Model of `utils.rs` `infer_level`. -/
def infer_level (e : IngestLogEntry) : Option String :=
  if e.error.isSome || !(e.success.getD true) then some "ERROR"
  else if e.success.getD false then some "INFO"
  else none

/-- Model of `utils.rs` `infer_topic`. -/
def infer_topic (udf_type : Option String) : Option String :=
  udf_type.map (fun t =>
    let lower := t.toLower
    if lower = "query" ∨ lower = "mutation" ∨ lower = "action" ∨ lower = "httpaction"
    then "function" else t)

/-! ### String-comparison and parsing helpers for the query engine -/

/-- Lexicographic comparison of char lists by code point.  This models
the SQLite BINARY collation on TEXT columns: byte-wise `memcmp` on UTF-8,
which orders strings exactly like code-point lexicographic order. -/
def charsLt : List Char → List Char → Bool
  | [], [] => false
  | [], _ :: _ => true
  | _ :: _, [] => false
  | a :: as, b :: bs =>
      decide (a.toNat < b.toNat) || (a == b && charsLt as bs)

/-- Model of the optional sign accepted by Rust integer `FromStr` parsing. -/
def stripSign (l : List Char) : Int × List Char :=
  match l with
  | [] => (1, [])
  | c :: r => if c = '+' then (1, r) else if c = '-' then (-1, r) else (1, l)

/-- Decimal value of a digit-char list (most significant first). -/
def digitsVal (ds : List Char) : Nat :=
  ds.foldl (fun a c => a * 10 + (c.toNat - 48)) 0

/-- Model of Rust `str::parse` for a bounded signed integer type:
optional sign, at least one digit, all decimal digits, value in range. -/
def parseIntIn (lo hi : Int) (l : List Char) : Option Int :=
  let sc := stripSign l
  if sc.2 ≠ [] ∧ sc.2.all Char.isDigit then
    let v : Int := sc.1 * (digitsVal sc.2 : Nat)
    if lo ≤ v ∧ v ≤ hi then some v else none
  else none

/-- Model of `str::parse::<i64>`. -/
def parse_i64 (l : List Char) : Option Int :=
  parseIntIn (-9223372036854775808) 9223372036854775807 l

/-- Model of `str::parse::<i32>`. -/
def parse_i32 (l : List Char) : Option Int :=
  parseIntIn (-2147483648) 2147483647 l

/-- Model of Rust `str::split(sep)` on a char list; always returns at
least one (possibly empty) part. -/
def splitChar (sep : Char) : List Char → List (List Char)
  | [] => [[]]
  | c :: cs =>
    let r := splitChar sep cs
    if c = sep then [] :: r
    else
      match r with
      | [] => [[c]]
      | h :: t => (c :: h) :: t

/-- Cursor parsing in `query_logs` (`commands.rs` lines 105-118): the
cursor has format `"ts:id"`; it contributes a pagination clause only when
it splits into exactly two parts with a parseable first part. -/
def parseCursorPair : Option String → Option Int × Option String
  | Option.none => (Option.none, Option.none)
  | some c =>
    match splitChar ':' c.data with
    | [a, b] => (parse_i64 a, some (String.mk b))
    | _ => (Option.none, Option.none)

/-! ### The query engine (`query_logs`) -/

/-- Conjunction of the optional filters of `query_logs` (`commands.rs`
lines 120-162).  SQL `col = ?` on a NULL column is not satisfied, hence
the `some`-equality for the nullable columns; an explicitly empty `levels`
list adds no clause at all. -/
def matchesFilters (f : LogFilters) (r : LogRow) : Bool :=
  (match f.deployment with | some d => r.deployment == d | none => true) &&
  (match f.start_ts with | some s => decide (s ≤ r.ts) | none => true) &&
  (match f.end_ts with | some e => decide (r.ts ≤ e) | none => true) &&
  (match f.request_id with | some q => r.request_id == some q | none => true) &&
  (match f.function_path with | some q => r.function_path == some q | none => true) &&
  (match f.success with | some b => r.success == some b | none => true) &&
  (match f.levels with
   | some ls => ls.isEmpty ||
       (match r.level with | some l => ls.contains l | none => false)
   | none => true)

/-- The keyset-pagination clause (`commands.rs` lines 164-170):
`ts < ? OR (ts = ? AND id < ?)`, present only when both cursor parts
parsed. -/
def cursorClause (pc : Option Int × Option String) (r : LogRow) : Bool :=
  match pc with
  | (some ts, some id) =>
      decide (r.ts < ts) || (r.ts == ts && charsLt r.id.data id.data)
  | _ => true

/-- The full row predicate of the query (filters AND cursor clause). -/
def queryPred (f : LogFilters) (pc : Option Int × Option String) (r : LogRow) : Bool :=
  matchesFilters f r && cursorClause pc r

/-- Ordering `ORDER BY ts DESC, id DESC`: row `a` sorts at or before row
`b`. -/
def rowGe (a b : LogRow) : Prop :=
  (decide (b.ts < a.ts) || (b.ts == a.ts && !charsLt a.id.data b.id.data)) = true

instance : DecidableRel rowGe :=
  fun _ _ => instDecidableEqBool _ true

/-- Strict version of `rowGe`: row `a` sorts strictly before row `b`. -/
def rowGt (a b : LogRow) : Prop :=
  (decide (b.ts < a.ts) || (b.ts == a.ts && charsLt b.id.data a.id.data)) = true

instance : DecidableRel rowGt :=
  fun _ _ => instDecidableEqBool _ true

/-- Model of the `i32`-to-`usize` cast in `logs.len() > limit as usize`. -/
def usizeOfI32 (n : Int) : Nat :=
  (n % 18446744073709551616).toNat

/-- SQLite `LIMIT n`: a negative `n` means no limit. -/
def limitRows (n : Int) (l : List LogRow) : List LogRow :=
  if n < 0 then l else l.take n.toNat

/-- Cursor encoding of a returned row: `format!("{}:{}", log.ts, log.id)`. -/
def formatCursor (r : LogRow) : String :=
  toString r.ts ++ ":" ++ r.id

/-- Effective limit: `limit.unwrap_or(100).min(1000)`. -/
def queryLimit (limit? : Option Int) : Int :=
  min (limit?.getD 100) 1000

/-- The matching rows in `(ts DESC, id DESC)` order, before `LIMIT`. -/
def querySortedRows (t : List LogRow) (f : LogFilters) (cursor : Option String) :
    List LogRow :=
  List.insertionSort rowGe (t.filter (queryPred f (parseCursorPair cursor)))

/-- Model of the body of `query_logs` (`commands.rs` lines 95-245): filter,
order by `(ts DESC, id DESC)`, fetch `limit+1` rows, pop the extra row,
derive the next cursor from the last returned row, and run the count query
with the same WHERE clause (which includes the cursor clause). -/
def queryLogsCore (t : List LogRow) (f : LogFilters) (limit? : Option Int)
    (cursor : Option String) : LogQueryResult :=
  let limit := queryLimit limit?
  let logs0 := limitRows (limit + 1) (querySortedRows t f cursor)
  let hasMore := decide (usizeOfI32 limit < logs0.length)
  let logs := if hasMore then logs0.dropLast else logs0
  { logs := logs
    total_count := ((t.filter (queryPred f (parseCursorPair cursor))).length : Int)
    has_more := hasMore
    cursor := logs.getLast?.map formatCursor }

/-- The canonical full result list for a filter set: all matching rows in
`(ts DESC, id DESC)` order. -/
def sortedMatching (t : List LogRow) (f : LogFilters) : List LogRow :=
  List.insertionSort rowGe (t.filter (matchesFilters f))

/-- The caller-side pagination loop of the spec: call `query` with
`limit = k`, append the page, and continue with the returned cursor while
`has_more` holds.  `fuel` bounds the number of calls. -/
def paginateAux (t : List LogRow) (f : LogFilters) (k : Int) :
    Option String → Nat → List LogRow
  | _, 0 => []
  | c, fuel + 1 =>
    let res := queryLogsCore t f (some k) c
    if res.has_more then res.logs ++ paginateAux t f k res.cursor fuel
    else res.logs

/-! ### The search engine (`search_logs`) -/

/-- Model of `query.replace(CHAR_QUOTE, "\x22\x22")`: double every embedded
double-quote character. -/
def escapeQuotes (s : String) : String :=
  String.mk (s.data.foldr (fun c acc => (if c = '"' then ['"', '"'] else [c]) ++ acc) [])

/-- The Unicode White_Space property as used by Rust `char::is_whitespace`:
U+0009..U+000D, U+0020, U+0085, U+00A0, U+1680, U+2000..U+200A, U+2028,
U+2029, U+202F, U+205F and U+3000. -/
def rustIsWhitespace (c : Char) : Bool :=
  let n := c.toNat
  (decide (9 ≤ n) && decide (n ≤ 13)) || n == 32 || n == 133 || n == 160 ||
    n == 5760 || (decide (8192 ≤ n) && decide (n ≤ 8202)) || n == 8232 ||
    n == 8233 || n == 8239 || n == 8287 || n == 12288

/-- Model of `str::trim`: drop leading and trailing Unicode whitespace. -/
def trimChars (s : String) : String :=
  String.mk (((s.data.dropWhile rustIsWhitespace).reverse.dropWhile rustIsWhitespace).reverse)

/-- The sanitized FTS query of `search_logs` (`commands.rs` lines 260-264):
escape embedded quotes, then trim. -/
def sanitizeFts (q : String) : String :=
  trimChars (escapeQuotes q)

/-- Alphanumeric tokenization with lowercasing, an executable model of the
FTS5 `unicode61` tokenizer over the indexed text.  (Porter stemming is not
modelled; no claim in this development depends on match semantics.) -/
def tokensAux : List Char → List Char → List String
  | [], cur => if cur.isEmpty then [] else [String.mk cur.reverse]
  | c :: cs, cur =>
    if c.isAlphanum then tokensAux cs (c.toLower :: cur)
    else if cur.isEmpty then tokensAux cs []
    else String.mk cur.reverse :: tokensAux cs []

/-- Tokens of a string. -/
def tokenize (s : String) : List String :=
  tokensAux s.data []

/-- Tokens of the four columns indexed by `logs_fts` (`db.rs`): `message`,
`function_path`, `function_name`, `request_id`. -/
def rowTokens (r : LogRow) : List String :=
  tokenize r.message
    ++ (match r.function_path with | some s => tokenize s | none => [])
    ++ (match r.function_name with | some s => tokenize s | none => [])
    ++ (match r.request_id with | some s => tokenize s | none => [])

/-- Model of `logs_fts MATCH ?`: every query token occurs among the
indexed tokens of the row. -/
def ftsMatch (q : String) (r : LogRow) : Bool :=
  (tokenize q).all (fun tok => (rowTokens r).contains tok)

/-- The additional filters applied by `search_logs` (`commands.rs` lines
270-287): deployment and timestamp range only. -/
def searchFilters (f : LogFilters) (r : LogRow) : Bool :=
  (match f.deployment with | some d => r.deployment == d | none => true) &&
  (match f.start_ts with | some s => decide (s ≤ r.ts) | none => true) &&
  (match f.end_ts with | some e => decide (r.ts ≤ e) | none => true)

/-- Ordering `ORDER BY logs.ts DESC` (no tiebreak) used by search. -/
def rowTsGe (a b : LogRow) : Prop :=
  (decide (b.ts ≤ a.ts)) = true

instance : DecidableRel rowTsGe :=
  fun _ _ => instDecidableEqBool _ true

/-- Model of the body of `search_logs` (`commands.rs` lines 249-352): reject
an empty sanitized query, else match, filter, order by `ts DESC` and cap at
`limit`; `total_count` is the returned set size and there is no cursor. -/
def searchLogsCore (t : List LogRow) (q : String) (f : LogFilters)
    (limit? : Option Int) : Except String LogQueryResult :=
  let limit := min (limit?.getD 100) 1000
  let fts := sanitizeFts q
  if fts = "" then Except.error "Empty search query"
  else
    let logs := limitRows limit
      (List.insertionSort rowTsGe (t.filter (fun r => ftsMatch fts r && searchFilters f r)))
    Except.ok { logs := logs, total_count := (logs.length : Int),
                has_more := false, cursor := Option.none }

/-! ### The ingest pipeline (`ingest_logs`) -/

/-- Primary-key check behind `INSERT OR IGNORE`: is a row with this `id`
already stored? -/
def containsId (t : List LogRow) (id : String) : Bool :=
  t.any (fun r => r.id == id)

/-- Minimal JSON rendering of a string (escaping is not modelled; no claim
reads `json_blob`). -/
def jsonStr (s : String) : String :=
  "\"" ++ s ++ "\""

/-- JSON rendering of an optional string. -/
def jsonOptStr : Option String → String
  | some s => jsonStr s
  | Option.none => "null"

/-- Model of `serde_json::to_string(&entry)` for the fallback `json_blob`
of an event with no caller-supplied `raw` value. -/
def serializeIngestEntry (e : IngestLogEntry) : String :=
  "\x7b\"id\":" ++ jsonStr e.id
    ++ ",\"timestamp\":" ++ toString e.timestamp
    ++ ",\"functionIdentifier\":" ++ jsonOptStr e.function_identifier
    ++ ",\"functionName\":" ++ jsonOptStr e.function_name
    ++ ",\"udfType\":" ++ jsonOptStr e.udf_type
    ++ ",\"requestId\":" ++ jsonOptStr e.request_id
    ++ ",\"executionId\":" ++ jsonOptStr e.execution_id
    ++ "\x7d"

/-- The content id the ingest loop computes for an event under a given
deployment: `compute_log_id` applied to the raw timestamp and request id,
the derived level and the derived message. -/
def ingestId (deployment : String) (e : IngestLogEntry) : String :=
  compute_log_id e.timestamp deployment e.request_id e.function_identifier
    (infer_level e) (extract_message e)

/-- The canonical row the ingest loop builds from an event (`commands.rs`
lines 24-68). -/
def ingestRow (deployment : String) (now : Int) (e : IngestLogEntry) : LogRow :=
  { id := ingestId deployment e, ts := e.timestamp, deployment := deployment,
    request_id := e.request_id, execution_id := e.execution_id,
    topic := infer_topic e.udf_type, level := infer_level e,
    function_path := e.function_identifier, function_name := e.function_name,
    udf_type := e.udf_type, success := e.success, duration_ms := e.duration_ms,
    message := extract_message e,
    json_blob := (match e.raw with
      | some raw => raw
      | Option.none => serializeIngestEntry e),
    created_at := now }

/-- Processing of one event inside the `ingest_logs` loop (`commands.rs`
lines 23-84): derive the canonical row and its content id, then
`INSERT OR IGNORE`.  Returns whether a row was inserted, plus the table
after the statement. -/
def ingestStep (deployment : String) (now : Int) (t : List LogRow)
    (e : IngestLogEntry) : Bool × List LogRow :=
  if containsId t (ingestId deployment e) then (false, t)
  else (true, t ++ [ingestRow deployment now e])

/-- Model of the body of `ingest_logs` (`commands.rs` lines 10-91): process
the batch in order, counting inserted rows and primary-key duplicates.
(The `errors` counter corresponds to SQLite statement failures, which the
in-memory embedding cannot produce.) -/
def ingestLogsCore (t : List LogRow) (logs : List IngestLogEntry)
    (deployment : String) (now : Int) : IngestResult × List LogRow :=
  match logs with
  | [] => (⟨0, 0, 0⟩, t)
  | e :: rest =>
    let step := ingestStep deployment now t e
    let res := ingestLogsCore step.2 rest deployment now
    (if step.1 then { res.1 with inserted := res.1.inserted + 1 }
     else { res.1 with duplicates := res.1.duplicates + 1 }, res.2)

/-! ### Retention and settings -/

/-- Deletion body shared by `delete_logs_older_than` and
`run_retention_once`: `DELETE FROM logs WHERE ts < cutoff`, returning the
deleted-row count and the remaining table.  (The subsequent
`wal_checkpoint` reclaims file space and has no observable effect on the
table state.) -/
def deleteOlderCore (t : List LogRow) (cutoff : Int) : Int × List LogRow :=
  (((t.filter (fun r => decide (r.ts < cutoff))).length : Int),
   t.filter (fun r => !decide (r.ts < cutoff)))

/-- Lookup in the `settings` key/value table (`key` is the primary key). -/
def settingsLookup (st : List (String × String)) (key : String) : Option String :=
  (st.find? (fun p => p.1 == key)).map Prod.snd

/-- Model of `INSERT OR REPLACE INTO settings`. -/
def settingsUpsert (st : List (String × String)) (key value : String) :
    List (String × String) :=
  if st.any (fun p => p.1 == key) then
    st.map (fun p => if p.1 == key then (key, value) else p)
  else st ++ [(key, value)]

/-- Reading of the settings with defaults (`commands.rs` lines 470-487):
a malformed stored integer falls back to 30 via `parse().unwrap_or(30)`,
a missing row falls back via `unwrap_or`. -/
def getSettingsCore (st : List (String × String)) : LogStoreSettings :=
  { retention_days := match settingsLookup st "retention_days" with
      | some v => (parse_i32 v.data).getD 30
      | Option.none => 30
    enabled := match settingsLookup st "enabled" with
      | some v => v == "true"
      | Option.none => true }

/-! ### The shared connection lock and the command layer

Every Tauri command starts with `db.lock().map_err(|e| format!("Lock
error: {}", e))?`; the retention helpers instead call `conn.lock().unwrap()`.
`LockState.poisoned` models a poisoned mutex (a holder panicked). -/

/-- State of the shared `Arc<Mutex<Connection>>`. -/
inductive LockState
  | healthy
  | poisoned
deriving DecidableEq, Repr

/-- Outcome of code that may panic (`unwrap` on a poisoned lock). -/
inductive PanicResult (α : Type)
  | panicked
  | returns (val : α)
deriving DecidableEq, Repr

/-- Model of `Mutex::lock`: the guard, or the poison error. -/
def lockAcquire : LockState → Except String Unit
  | LockState.healthy => Except.ok ()
  | LockState.poisoned => Except.error "poisoned lock: another task failed inside"

/-- The `db.lock().map_err(|e| format!("Lock error: {}", e))?` prologue of
every command. -/
def withLock {α : Type} (lk : LockState) (body : Unit → α) : Except String α :=
  match lockAcquire lk with
  | Except.error e => Except.error ("Lock error: " ++ e)
  | Except.ok _ => Except.ok (body ())

/-- Command `ingest_logs`: result value and table state after the call. -/
def ingest_logs (lk : LockState) (t : List LogRow) (logs : List IngestLogEntry)
    (deployment : String) (now : Int) : Except String (IngestResult × List LogRow) :=
  withLock lk (fun _ => ingestLogsCore t logs deployment now)

/-- Command `query_logs`. -/
def query_logs (lk : LockState) (t : List LogRow) (f : LogFilters)
    (limit? : Option Int) (cursor : Option String) : Except String LogQueryResult :=
  withLock lk (fun _ => queryLogsCore t f limit? cursor)

/-- Command `search_logs` (the lock is taken before the sanitize check). -/
def search_logs (lk : LockState) (t : List LogRow) (q : String) (f : LogFilters)
    (limit? : Option Int) : Except String LogQueryResult :=
  match lockAcquire lk with
  | Except.error e => Except.error ("Lock error: " ++ e)
  | Except.ok _ => searchLogsCore t q f limit?

/-- Command `get_log_by_id`. -/
def get_log_by_id (lk : LockState) (t : List LogRow) (id : String) :
    Except String (Option LogRow) :=
  withLock lk (fun _ => t.find? (fun r => r.id == id))

/-- Command `delete_logs_older_than` (`commands.rs` lines 398-416): `now`
is taken at the start of the call, `cutoff = now - days*24*60*60*1000`. -/
def delete_logs_older_than (lk : LockState) (t : List LogRow) (now : Int)
    (days : Int) : Except String (Int × List LogRow) :=
  withLock lk (fun _ => deleteOlderCore t (now - days * 24 * 60 * 60 * 1000))

/-- Command `get_log_store_settings`. -/
def get_log_store_settings (lk : LockState) (st : List (String × String)) :
    Except String LogStoreSettings :=
  withLock lk (fun _ => getSettingsCore st)

/-- Command `set_log_store_settings`: writes both keys unconditionally. -/
def set_log_store_settings (lk : LockState) (st : List (String × String))
    (s : LogStoreSettings) : Except String (List (String × String)) :=
  withLock lk (fun _ =>
    settingsUpsert (settingsUpsert st "retention_days" (toString s.retention_days))
      "enabled" (if s.enabled then "true" else "false"))

/-- Command `clear_all_logs`. -/
def clear_all_logs (lk : LockState) (_t : List LogRow) :
    Except String (List LogRow) :=
  withLock lk (fun _ => ([] : List LogRow))

/-- Model of `run_retention_once` (`retention.rs` lines 6-29): the lock is
acquired with `conn.lock().unwrap()`, which panics on a poisoned lock; on a
healthy lock it deletes rows older than the cutoff and returns the count. -/
def run_retention_once (lk : LockState) (t : List LogRow) (now : Int)
    (retention_days : Int) : PanicResult (Except String Int × List LogRow) :=
  match lk with
  | LockState.poisoned => PanicResult.panicked
  | LockState.healthy =>
    let res := deleteOlderCore t (now - retention_days * 24 * 60 * 60 * 1000)
    PanicResult.returns (Except.ok res.1, res.2)

/-- Model of `get_retention_days` (`retention.rs` lines 61-74): also
`conn.lock().unwrap()`, hence a panic on a poisoned lock; the read itself
falls back to 30 on a missing or malformed value. -/
def get_retention_days (lk : LockState) (st : List (String × String)) :
    PanicResult Int :=
  match lk with
  | LockState.poisoned => PanicResult.panicked
  | LockState.healthy =>
    PanicResult.returns (match settingsLookup st "retention_days" with
      | some v => (parse_i32 v.data).getD 30
      | Option.none => 30)

/-! ### Sample data used by concrete witnesses and counterexamples -/

/-- A minimal log row with the given id and timestamp. -/
def sampleRow (id : String) (ts : Int) : LogRow :=
  { id := id, ts := ts, deployment := "d", request_id := Option.none,
    execution_id := Option.none, topic := Option.none, level := Option.none,
    function_path := Option.none, function_name := Option.none,
    udf_type := Option.none, success := Option.none, duration_ms := Option.none,
    message := "m", json_blob := "", created_at := 0 }

/-- An ingest event with every optional field absent. -/
def baseEntry : IngestLogEntry :=
  { id := "", timestamp := 0, function_identifier := Option.none,
    function_name := Option.none, udf_type := Option.none,
    request_id := Option.none, execution_id := Option.none,
    success := Option.none, duration_ms := Option.none, error := Option.none,
    log_lines := Option.none, raw := Option.none }

/-- Scenario event of the spec: dedup tuple ts 1000, deployment d1,
request r1, function f, level ERROR, message x. -/
def entE1 : IngestLogEntry :=
  { baseEntry with
    timestamp := 1000
    request_id := some "r1"
    function_identifier := some "f"
    success := some false
    log_lines := some ["x"]
    duration_ms := some 5 }

/-- Same dedup tuple as `entE1`, different unrelated field. -/
def entE2 : IngestLogEntry :=
  { entE1 with
    duration_ms := some 99 }

/-- Event hashed with request id `c`; with deployment `ab` the hash input
starts with the bytes of `ab` then `c`. -/
def entC9a : IngestLogEntry :=
  { baseEntry with
    timestamp := 1000
    request_id := some "c"
    error := some "m" }

/-- Same as `entC9a` but without a request id; with deployment `abc` its
hash input bytes coincide with those of `entC9a` under deployment `ab`. -/
def entC9b : IngestLogEntry :=
  { entC9a with
    request_id := Option.none }

/-! ## Order lemmas for the `(ts DESC, id DESC)` sort key -/

theorem char_toNat_inj {c₁ c₂ : Char} (h : c₁.toNat = c₂.toNat) : c₁ = c₂ := by
  apply Char.ext
  have h' : c₁.val.toNat = c₂.val.toNat := h
  exact UInt32.toNat.inj h'

theorem charsLt_irrefl (l : List Char) : charsLt l l = false := by
  induction l with
  | nil => rfl
  | cons c cs ih => simp [charsLt, ih]

theorem charsLt_asymm : ∀ {a b : List Char}, charsLt a b = true → charsLt b a = false
  | [], [], h => by simp [charsLt] at h
  | [], _ :: _, _ => by simp [charsLt]
  | _ :: _, [], h => by simp [charsLt] at h
  | x :: as, y :: bs, h => by
    simp only [charsLt, Bool.or_eq_true, Bool.and_eq_true, decide_eq_true_eq,
      beq_iff_eq] at h
    simp only [charsLt, Bool.or_eq_false_iff, Bool.and_eq_false_iff,
      decide_eq_false_iff_not, beq_eq_false_iff_ne, ne_eq]
    rcases h with h | ⟨rfl, h⟩
    · constructor
      · omega
      · left
        intro he
        rw [he] at h
        omega
    · exact ⟨by omega, Or.inr (charsLt_asymm h)⟩

theorem charsLt_trans : ∀ {a b c : List Char},
    charsLt a b = true → charsLt b c = true → charsLt a c = true
  | [], _, _ :: _, _, _ => by simp [charsLt]
  | [], _, [], _, h2 => by
    cases ‹List Char› <;> simp [charsLt] at h2
  | _ :: _, [], _, h1, _ => by simp [charsLt] at h1
  | _ :: _, _ :: _, [], _, h2 => by simp [charsLt] at h2
  | x :: as, y :: bs, z :: cs, h1, h2 => by
    simp only [charsLt, Bool.or_eq_true, Bool.and_eq_true, decide_eq_true_eq,
      beq_iff_eq] at h1 h2 ⊢
    rcases h1 with h1 | ⟨rfl, h1⟩
    · rcases h2 with h2 | ⟨rfl, h2⟩
      · exact Or.inl (by omega)
      · exact Or.inl h1
    · rcases h2 with h2 | ⟨rfl, h2⟩
      · exact Or.inl h2
      · exact Or.inr ⟨rfl, charsLt_trans h1 h2⟩

theorem charsLt_eq_of_not_lt : ∀ {a b : List Char},
    charsLt a b = false → charsLt b a = false → a = b
  | [], [], _, _ => rfl
  | [], _ :: _, h1, _ => by simp [charsLt] at h1
  | _ :: _, [], _, h2 => by simp [charsLt] at h2
  | x :: as, y :: bs, h1, h2 => by
    simp only [charsLt, Bool.or_eq_false_iff, Bool.and_eq_false_iff,
      decide_eq_false_iff_not, beq_eq_false_iff_ne, ne_eq] at h1 h2
    obtain ⟨hxy, h1'⟩ := h1
    obtain ⟨hyx, h2'⟩ := h2
    have hx : x = y := char_toNat_inj (by omega)
    subst hx
    rcases h1' with h | h
    · exact absurd rfl h
    · rcases h2' with h' | h'
      · exact absurd rfl h'
      · rw [charsLt_eq_of_not_lt h h']

theorem rowGe_total : ∀ a b : LogRow, rowGe a b ∨ rowGe b a := by
  intro a b
  unfold rowGe
  simp only [Bool.or_eq_true, Bool.and_eq_true, decide_eq_true_eq, beq_iff_eq]
  rcases lt_trichotomy a.ts b.ts with h | h | h
  · exact Or.inr (Or.inl h)
  · by_cases hid : charsLt a.id.data b.id.data = true
    · refine Or.inr (Or.inr ⟨h, ?_⟩)
      simp [charsLt_asymm hid]
    · exact Or.inl (Or.inr ⟨h.symm, by simp [hid]⟩)
  · exact Or.inl (Or.inl h)

theorem rowGe_trans : ∀ a b c : LogRow, rowGe a b → rowGe b c → rowGe a c := by
  intro a b c hab hbc
  unfold rowGe at hab hbc ⊢
  simp only [Bool.or_eq_true, Bool.and_eq_true, decide_eq_true_eq, beq_iff_eq,
    Bool.not_eq_true'] at hab hbc ⊢
  rcases hab with hab | ⟨hts1, hid1⟩
  · rcases hbc with hbc | ⟨hts2, _⟩
    · exact Or.inl (by omega)
    · exact Or.inl (by omega)
  · rcases hbc with hbc | ⟨hts2, hid2⟩
    · exact Or.inl (by omega)
    · refine Or.inr ⟨by omega, ?_⟩
      by_cases h : charsLt a.id.data c.id.data = true
      · by_cases h' : charsLt b.id.data a.id.data = true
        · have := charsLt_trans h' h
          rw [this] at hid2
          exact absurd hid2 (by simp)
        · have : b.id.data = a.id.data :=
            charsLt_eq_of_not_lt (by simpa using h') hid1
          rw [← this] at h
          rw [h] at hid2
          exact absurd hid2 (by simp)
      · simpa using h

theorem rowGt_asymm {a b : LogRow} (h1 : rowGt a b) (h2 : rowGt b a) : False := by
  unfold rowGt at h1 h2
  simp only [Bool.or_eq_true, Bool.and_eq_true, decide_eq_true_eq, beq_iff_eq] at h1 h2
  rcases h1 with h1 | ⟨hts1, hid1⟩ <;> rcases h2 with h2 | ⟨hts2, hid2⟩
  · omega
  · omega
  · omega
  · rw [charsLt_asymm hid1] at hid2
    exact absurd hid2 (by simp)

theorem rowGt_irrefl (a : LogRow) : ¬ rowGt a a := by
  unfold rowGt
  simp [charsLt_irrefl]

theorem rowGt_of_rowGe_ne {a b : LogRow} (h : rowGe a b) (hne : a.id ≠ b.id) :
    rowGt a b := by
  unfold rowGe at h
  unfold rowGt
  simp only [Bool.or_eq_true, Bool.and_eq_true, decide_eq_true_eq, beq_iff_eq,
    Bool.not_eq_true'] at h ⊢
  rcases h with h | ⟨hts, hid⟩
  · exact Or.inl h
  · refine Or.inr ⟨hts, ?_⟩
    by_cases h' : charsLt b.id.data a.id.data = true
    · exact h'
    · exfalso
      apply hne
      have hd : a.id.data = b.id.data :=
        charsLt_eq_of_not_lt hid (by simpa using h')
      cases ha : a.id
      cases hb : b.id
      rw [ha, hb] at hd
      exact congrArg String.mk (by simpa using hd)

theorem rowGt_rowGe {a b : LogRow} (h : rowGt a b) : rowGe a b := by
  unfold rowGt at h
  unfold rowGe
  simp only [Bool.or_eq_true, Bool.and_eq_true, decide_eq_true_eq, beq_iff_eq,
    Bool.not_eq_true'] at h ⊢
  rcases h with h | ⟨hts, hid⟩
  · exact Or.inl h
  · exact Or.inr ⟨hts, charsLt_asymm hid⟩

/-! ## Generic list counting helper -/

theorem length_filter_pos_neg {α : Type} (p : α → Bool) (l : List α) :
    (l.filter p).length + (l.filter (fun a => !p a)).length = l.length := by
  induction l with
  | nil => rfl
  | cons a l ih =>
    by_cases h : p a = true <;> simp [List.filter_cons, h] <;> omega

/-! ## C4: retention deletion -/

/-- C4.  After `deleteOlderThan(days)` (with `now` taken at the start of
the call), every remaining row has `ts ≥ now - days*86400000`, every row
below that cutoff is gone, rows at or above the cutoff are kept unchanged
(the remainder is a sublist of the original table), and the returned count
is the number of deleted rows. -/
theorem delete_older_than_spec (t : List LogRow) (now days : Int) :
    delete_logs_older_than LockState.healthy t now days =
      Except.ok (deleteOlderCore t (now - days * 86400000)) ∧
    (∀ r ∈ (deleteOlderCore t (now - days * 86400000)).2,
      now - days * 86400000 ≤ r.ts) ∧
    (∀ r ∈ t, r.ts < now - days * 86400000 →
      r ∉ (deleteOlderCore t (now - days * 86400000)).2) ∧
    (∀ r ∈ t, now - days * 86400000 ≤ r.ts →
      r ∈ (deleteOlderCore t (now - days * 86400000)).2) ∧
    (deleteOlderCore t (now - days * 86400000)).1 =
      ((t.filter (fun r => decide (r.ts < now - days * 86400000))).length : Int) ∧
    ((deleteOlderCore t (now - days * 86400000)).2).Sublist t ∧
    (deleteOlderCore t (now - days * 86400000)).1 +
      ((deleteOlderCore t (now - days * 86400000)).2.length : Int) = (t.length : Int) := by
  refine ⟨?_, ?_, ?_, ?_, rfl, ?_, ?_⟩
  · show Except.ok _ = Except.ok _
    have h : now - days * 24 * 60 * 60 * 1000 = now - days * 86400000 := by ring
    rw [h]
  · intro r hr
    rw [deleteOlderCore, List.mem_filter] at hr
    have := hr.2
    simp only [Bool.not_eq_true', decide_eq_false_iff_not] at this
    omega
  · intro r _ hlt hmem
    rw [deleteOlderCore, List.mem_filter] at hmem
    have := hmem.2
    simp only [Bool.not_eq_true', decide_eq_false_iff_not] at this
    omega
  · intro r hr hge
    rw [deleteOlderCore, List.mem_filter]
    refine ⟨hr, ?_⟩
    simp only [Bool.not_eq_true', decide_eq_false_iff_not]
    omega
  · exact List.filter_sublist t
  · have h := length_filter_pos_neg (fun r : LogRow => decide (r.ts < now - days * 86400000)) t
    simp only [deleteOlderCore]
    omega

/-- Witness for C4 at a concrete input: with `now = 10`, `days = 0` and a
single row of timestamp 20, the row is in the remainder and the theorem
yields the cutoff bound for it. -/
theorem delete_older_than_spec_witness :
    sampleRow "a" 20 ∈ (deleteOlderCore [sampleRow "a" 20] ((10 : Int) - 0 * 86400000)).2 ∧
    (10 : Int) - 0 * 86400000 ≤ (sampleRow "a" 20).ts :=
  ⟨by decide, (delete_older_than_spec [sampleRow "a" 20] 10 0).2.1 (sampleRow "a" 20) (by decide)⟩

/-! ## C5: message derivation -/

/-- C5.  The derived message follows the priority order: error text as
`Error: text`; else the log lines joined with " | " when present and
non-empty; else a function summary whose verb depends on whether success
is explicitly false; else the literal `Log entry`. -/
theorem extract_message_spec (e : IngestLogEntry) :
    (∀ txt, e.error = some txt → extract_message e = "Error: " ++ txt) ∧
    (e.error = Option.none → ∀ ls, e.log_lines = some ls → ls ≠ [] →
      extract_message e = String.intercalate " | " ls) ∧
    (e.error = Option.none → (e.log_lines = Option.none ∨ e.log_lines = some []) →
      ∀ nm, e.function_name = some nm →
      (e.success ≠ some false →
        extract_message e = "Function " ++ squote ++ nm ++ squote ++ " executed") ∧
      (e.success = some false →
        extract_message e = "Function " ++ squote ++ nm ++ squote ++ " failed")) ∧
    (e.error = Option.none → (e.log_lines = Option.none ∨ e.log_lines = some []) →
      e.function_name = Option.none → extract_message e = "Log entry") := by
  refine ⟨?_, ?_, ?_, ?_⟩
  · intro txt htxt
    simp [extract_message, htxt]
  · intro herr ls hls hne
    simp [extract_message, herr, hls, hne]
  · intro herr hlines nm hnm
    constructor
    · intro hsucc
      have hs : e.success.getD true = true := by
        cases h : e.success with
        | none => rfl
        | some b => cases b with
          | true => rfl
          | false => exact absurd h hsucc
      rcases hlines with h | h <;>
        simp [extract_message, extractMessageFn, herr, h, hnm, hs]
    · intro hsucc
      have hs : e.success.getD true = false := by rw [hsucc]; rfl
      rcases hlines with h | h <;>
        simp [extract_message, extractMessageFn, herr, h, hnm, hs]
  · intro herr hlines hnm
    rcases hlines with h | h <;>
      simp [extract_message, extractMessageFn, herr, h, hnm]

/-- Witness for C5 at a concrete input: an event carrying error text gets
the `Error:` prefix. -/
theorem extract_message_spec_witness :
    ({ baseEntry with error := some "boom" } : IngestLogEntry).error = some "boom" ∧
    extract_message { baseEntry with error := some "boom" } = "Error: " ++ "boom" :=
  ⟨rfl, (extract_message_spec { baseEntry with error := some "boom" }).1 "boom" rfl⟩

/-! ## C7: empty search query rejection -/

/-- C7.  `search_logs` (under a healthy lock) returns the empty-query
error exactly when the sanitized query (quotes escaped, then trimmed) is
empty; an input consisting of a quote character alone sanitizes to a
non-empty string and is not rejected. -/
theorem search_empty_query_spec :
    (∀ (t : List LogRow) (q : String) (f : LogFilters) (l : Option Int),
      search_logs LockState.healthy t q f l = Except.error "Empty search query" ↔
        sanitizeFts q = "") ∧
    (∀ (t : List LogRow) (f : LogFilters) (l : Option Int),
      (search_logs LockState.healthy t "\"" f l).isOk = true) ∧
    (∀ (t : List LogRow) (f : LogFilters) (l : Option Int),
      search_logs LockState.healthy t "\x0B" f l =
        Except.error "Empty search query") := by
  have hiff : ∀ (t : List LogRow) (q : String) (f : LogFilters) (l : Option Int),
      search_logs LockState.healthy t q f l = Except.error "Empty search query" ↔
        sanitizeFts q = "" := by
    intro t q f l
    show searchLogsCore t q f l = Except.error "Empty search query" ↔ sanitizeFts q = ""
    rw [searchLogsCore]
    by_cases h : sanitizeFts q = "" <;> simp [h]
  refine ⟨hiff, ?_, ?_⟩
  · intro t f l
    show (searchLogsCore t "\"" f l).isOk = true
    rw [searchLogsCore]
    have h : sanitizeFts "\"" = "\"\"" := by decide
    simp [h, Except.isOk, Except.toBool]
  · intro t f l
    exact (hiff t "\x0B" f l).mpr (by decide)

/-! ## C8: failure propagation (corrected) -/

/-- Counterexample to C8 as stated: the retention sweep and its settings
read do not report a poisoned lock as an error value; they call `unwrap`
on the lock and panic. -/
theorem retention_poisoned_panics :
    run_retention_once LockState.poisoned [] 0 30 = PanicResult.panicked ∧
    get_retention_days LockState.poisoned [] = PanicResult.panicked :=
  ⟨rfl, rfl⟩

/-- C8 amended.  Every Tauri command reports a failed (poisoned) lock
acquisition as a descriptive error value, but the retention helpers
`run_retention_once` and `get_retention_days` panic on a poisoned lock. -/
theorem lock_failure_spec :
    (∀ t logs d now, ingest_logs LockState.poisoned t logs d now =
      Except.error "Lock error: poisoned lock: another task failed inside") ∧
    (∀ t f l c, query_logs LockState.poisoned t f l c =
      Except.error "Lock error: poisoned lock: another task failed inside") ∧
    (∀ t q f l, search_logs LockState.poisoned t q f l =
      Except.error "Lock error: poisoned lock: another task failed inside") ∧
    (∀ t id, get_log_by_id LockState.poisoned t id =
      Except.error "Lock error: poisoned lock: another task failed inside") ∧
    (∀ t now days, delete_logs_older_than LockState.poisoned t now days =
      Except.error "Lock error: poisoned lock: another task failed inside") ∧
    (∀ st, get_log_store_settings LockState.poisoned st =
      Except.error "Lock error: poisoned lock: another task failed inside") ∧
    (∀ st s, set_log_store_settings LockState.poisoned st s =
      Except.error "Lock error: poisoned lock: another task failed inside") ∧
    (∀ t, clear_all_logs LockState.poisoned t =
      Except.error "Lock error: poisoned lock: another task failed inside") ∧
    (∀ t now days, run_retention_once LockState.poisoned t now days =
      PanicResult.panicked) ∧
    (∀ st, get_retention_days LockState.poisoned st = PanicResult.panicked) :=
  ⟨fun _ _ _ _ => rfl, fun _ _ _ _ => rfl, fun _ _ _ _ => rfl, fun _ _ => rfl,
   fun _ _ _ => rfl, fun _ => rfl, fun _ _ => rfl, fun _ => rfl,
   fun _ _ _ => rfl, fun _ => rfl⟩

/-! ## C10: malformed cursors are silently ignored -/

/-- The cursor clause is a tautology whenever the timestamp part of the
parsed cursor is absent. -/
theorem cursorClause_none_fst (pc : Option Int × Option String) (r : LogRow)
    (h : pc.1 = Option.none) : cursorClause pc r = true := by
  obtain ⟨fst, snd⟩ := pc
  cases h
  cases snd <;> rfl

/-- C10.  A cursor string that does not split on a colon into exactly two
parts with an integer first part contributes no pagination clause: the
query succeeds and returns exactly the first page, as with no cursor. -/
theorem malformed_cursor_spec (t : List LogRow) (f : LogFilters) (l : Option Int)
    (c : String)
    (h : (splitChar ':' c.data).length ≠ 2 ∨
      parse_i64 ((splitChar ':' c.data).headD []) = Option.none) :
    query_logs LockState.healthy t f l (some c) =
      query_logs LockState.healthy t f l Option.none ∧
    (query_logs LockState.healthy t f l (some c)).isOk = true := by
  have hfst : (parseCursorPair (some c)).1 = Option.none := by
    rw [parseCursorPair]
    match hs : splitChar ':' c.data with
    | [] => rfl
    | [a] => rfl
    | [a, b] =>
      rcases h with h | h
      · rw [hs] at h
        exact absurd rfl h
      · rw [hs] at h
        simpa using h
    | a :: b :: x :: rest => rfl
  have hpred : queryPred f (parseCursorPair (some c)) =
      queryPred f (parseCursorPair Option.none) := by
    funext r
    rw [queryPred, queryPred, cursorClause_none_fst _ _ hfst,
      cursorClause_none_fst _ _ rfl]
  constructor
  · show Except.ok _ = Except.ok _
    rw [queryLogsCore, queryLogsCore, querySortedRows, querySortedRows, hpred]
  · rfl

/-- Witness for C10 at a concrete input: the cursor string `abc` does not
split into two parts, and the query with it equals the cursorless query. -/
theorem malformed_cursor_spec_witness :
    ((splitChar ':' ("abc" : String).data).length ≠ 2 ∨
      parse_i64 ((splitChar ':' ("abc" : String).data).headD []) = Option.none) ∧
    (query_logs LockState.healthy [sampleRow "a" 1] LogFilters.none (some 10) (some "abc") =
      query_logs LockState.healthy [sampleRow "a" 1] LogFilters.none (some 10) Option.none ∧
    (query_logs LockState.healthy [sampleRow "a" 1] LogFilters.none (some 10) (some "abc")).isOk = true) :=
  ⟨by decide,
   malformed_cursor_spec [sampleRow "a" 1] LogFilters.none (some 10) "abc" (by decide)⟩

/-! ## C3 and C9: ingest dedup machinery -/

theorem containsId_append (t : List LogRow) (r : LogRow) (i : String) :
    containsId (t ++ [r]) i = (containsId t i || (r.id == i)) := by
  simp [containsId, List.any_append]

theorem ingestStep_table (d : String) (now : Int) (t : List LogRow)
    (e : IngestLogEntry) :
    (containsId t (ingestId d e) = true ∧ ingestStep d now t e = (false, t)) ∨
    (containsId t (ingestId d e) = false ∧
      ∃ row : LogRow, row.id = ingestId d e ∧
        ingestStep d now t e = (true, t ++ [row])) := by
  by_cases h : containsId t (ingestId d e) = true
  · exact Or.inl ⟨h, by rw [ingestStep, if_pos h]⟩
  · exact Or.inr ⟨by simpa using h, ingestRow d now e, rfl,
      by rw [ingestStep, if_neg h]⟩

theorem ingestStep_mono {d : String} {now : Int} {t : List LogRow}
    {e : IngestLogEntry} {i : String} (h : containsId t i = true) :
    containsId (ingestStep d now t e).2 i = true := by
  rcases ingestStep_table d now t e with ⟨_, hstep⟩ | ⟨_, row, _, hstep⟩
  · rw [hstep]
    exact h
  · rw [hstep]
    show containsId (t ++ [row]) i = true
    rw [containsId_append, h]
    rfl

theorem ingestStep_contains_self (d : String) (now : Int) (t : List LogRow)
    (e : IngestLogEntry) :
    containsId (ingestStep d now t e).2 (ingestId d e) = true := by
  rcases ingestStep_table d now t e with ⟨hc, hstep⟩ | ⟨_, row, hrow, hstep⟩ <;>
    rw [hstep]
  · exact hc
  · rw [containsId_append, hrow]
    simp

theorem ingest_mono (d : String) (now : Int) :
    ∀ (logs : List IngestLogEntry) (t : List LogRow) (i : String),
      containsId t i = true → containsId (ingestLogsCore t logs d now).2 i = true := by
  intro logs
  induction logs with
  | nil => intro t i h; exact h
  | cons e rest ih =>
    intro t i h
    rw [ingestLogsCore]
    exact ih (ingestStep d now t e).2 i (ingestStep_mono h)

theorem ingest_contains_all (d : String) (now : Int) :
    ∀ (logs : List IngestLogEntry) (t : List LogRow) (e : IngestLogEntry),
      e ∈ logs → containsId (ingestLogsCore t logs d now).2 (ingestId d e) = true := by
  intro logs
  induction logs with
  | nil => intro t e h; exact absurd h (List.not_mem_nil e)
  | cons e0 rest ih =>
    intro t e h
    rw [ingestLogsCore]
    rcases List.mem_cons.mp h with rfl | h
    · exact ingest_mono d now rest _ _ (ingestStep_contains_self d now t e)
    · exact ih _ e h

theorem ingest_all_dup (d : String) (now : Int) :
    ∀ (logs : List IngestLogEntry) (t : List LogRow),
      (∀ e ∈ logs, containsId t (ingestId d e) = true) →
      ingestLogsCore t logs d now = (⟨0, logs.length, 0⟩, t) := by
  intro logs
  induction logs with
  | nil => intro t _; rfl
  | cons e rest ih =>
    intro t h
    rw [ingestLogsCore]
    rcases ingestStep_table d now t e with ⟨_, hstep⟩ | ⟨hc, _, _, _⟩
    · rw [hstep]
      have hrest := ih t (fun e' he' => h e' (List.mem_cons_of_mem _ he'))
      rw [hrest]
      simp [List.length_cons]
    · rw [h e (List.mem_cons_self e rest)] at hc
      exact absurd hc (by simp)

/-- C3.  Ingest is idempotent and deduplicates by the id tuple: re-ingesting
any batch over the table it produced reports `inserted = 0`,
`duplicates = len(batch)` and leaves the table unchanged; and two events
with equal dedup tuples `(ts, deployment, request_id, function_path,
level, message)` but different other fields store exactly one row, the
second being counted as a duplicate. -/
theorem ingest_idempotent_dedup :
    (∀ (t : List LogRow) (logs : List IngestLogEntry) (d : String) (now1 now2 : Int),
      ingestLogsCore (ingestLogsCore t logs d now1).2 logs d now2 =
        (⟨0, logs.length, 0⟩, (ingestLogsCore t logs d now1).2)) ∧
    (∀ (d : String) (now1 now2 : Int) (e1 e2 : IngestLogEntry),
      e1.timestamp = e2.timestamp → e1.request_id = e2.request_id →
      e1.function_identifier = e2.function_identifier →
      infer_level e1 = infer_level e2 → extract_message e1 = extract_message e2 →
      (ingestLogsCore [] [e1] d now1).1.inserted = 1 ∧
      (ingestLogsCore [] [e1] d now1).2.length = 1 ∧
      ingestLogsCore (ingestLogsCore [] [e1] d now1).2 [e2] d now2 =
        (⟨0, 1, 0⟩, (ingestLogsCore [] [e1] d now1).2)) := by
  constructor
  · intro t logs d now1 now2
    exact ingest_all_dup d now2 logs _ (fun e he => ingest_contains_all d now1 logs t e he)
  · intro d now1 now2 e1 e2 hts hrid hfp hlvl hmsg
    have hid : ingestId d e2 = ingestId d e1 := by
      rw [ingestId, ingestId, hts, hrid, hfp, hlvl, hmsg]
    have h1 : ingestLogsCore [] [e1] d now1 =
        (⟨1, 0, 0⟩, (ingestStep d now1 [] e1).2) := by
      rw [ingestLogsCore, ingestLogsCore]
      rcases ingestStep_table d now1 [] e1 with ⟨hc, _⟩ | ⟨_, row, _, hstep⟩
      · rw [show containsId [] (ingestId d e1) = false from rfl] at hc
        exact absurd hc (by simp)
      · rw [hstep]
        rfl
    refine ⟨by rw [h1], ?_, ?_⟩
    · rcases ingestStep_table d now1 [] e1 with ⟨hc, _⟩ | ⟨_, row, _, hstep⟩
      · rw [show containsId [] (ingestId d e1) = false from rfl] at hc
        exact absurd hc (by simp)
      · rw [h1, hstep]
        rfl
    · have hall : ∀ e ∈ [e2],
          containsId (ingestLogsCore [] [e1] d now1).2 (ingestId d e) = true := by
        intro e he
        rcases List.mem_singleton.mp he with rfl
        rw [hid]
        exact ingest_contains_all d now1 [e1] [] e1 (List.mem_singleton_self e1)
      have h2 := ingest_all_dup d now2 [e2] (ingestLogsCore [] [e1] d now1).2 hall
      rw [h2]
      rfl

/-- Witness for C3 at the concrete scenario of the spec: `entE1` and
`entE2` share the dedup tuple (ts 1000, deployment d1, request r1,
function f, level ERROR, message x) and differ in `duration_ms`; across
the two calls one row is stored, with `inserted = 1` then
`duplicates = 1`. -/
theorem ingest_idempotent_dedup_witness :
    entE1.timestamp = entE2.timestamp ∧ entE1.request_id = entE2.request_id ∧
    entE1.function_identifier = entE2.function_identifier ∧
    infer_level entE1 = infer_level entE2 ∧
    extract_message entE1 = extract_message entE2 ∧ entE1 ≠ entE2 ∧
    ((ingestLogsCore [] [entE1] "d1" 0).1.inserted = 1 ∧
     (ingestLogsCore [] [entE1] "d1" 0).2.length = 1 ∧
     ingestLogsCore (ingestLogsCore [] [entE1] "d1" 0).2 [entE2] "d1" 0 =
       (⟨0, 1, 0⟩, (ingestLogsCore [] [entE1] "d1" 0).2)) :=
  ⟨rfl, rfl, rfl, rfl, rfl, by decide,
   ingest_idempotent_dedup.2 "d1" 0 0 entE1 entE2 rfl rfl rfl rfl rfl⟩

/-- C9.  The content id is not injective on distinct field tuples: the
concatenation has no separators, so `(deployment ab, request_id c)` and
`(deployment abc, request_id absent)` with equal remaining fields produce
byte-identical hash inputs, hence equal ids, and the second event is
deduplicated although its tuple differs. -/
theorem log_id_collision :
    compute_log_id 1000 "ab" (some "c") Option.none (some "ERROR") "Error: m" =
      compute_log_id 1000 "abc" Option.none Option.none (some "ERROR") "Error: m" ∧
    (("ab", some "c") ≠ ("abc", (Option.none : Option String))) ∧
    (ingestLogsCore [] [entC9a] "ab" 0).1.inserted = 1 ∧
    (ingestLogsCore (ingestLogsCore [] [entC9a] "ab" 0).2 [entC9b] "abc" 0).1 =
      ⟨0, 1, 0⟩ ∧
    (ingestLogsCore (ingestLogsCore [] [entC9a] "ab" 0).2 [entC9b] "abc" 0).2 =
      (ingestLogsCore [] [entC9a] "ab" 0).2 := by
  have hbytes : logIdInput 1000 "ab" (some "c") Option.none (some "ERROR") "Error: m" =
      logIdInput 1000 "abc" Option.none Option.none (some "ERROR") "Error: m" := by
    decide
  have hid : compute_log_id 1000 "ab" (some "c") Option.none (some "ERROR") "Error: m" =
      compute_log_id 1000 "abc" Option.none Option.none (some "ERROR") "Error: m" :=
    congrArg sha256hex hbytes
  have hids : ingestId "abc" entC9b = ingestId "ab" entC9a := by
    show compute_log_id 1000 "abc" Option.none Option.none
        (infer_level entC9b) (extract_message entC9b) = _
    rw [show infer_level entC9b = some "ERROR" from rfl,
      show extract_message entC9b = "Error: " ++ "m" from rfl]
    exact hid.symm
  have h1 : ingestLogsCore [] [entC9a] "ab" 0 =
      (⟨1, 0, 0⟩, (ingestStep "ab" 0 [] entC9a).2) := by
    rw [ingestLogsCore, ingestLogsCore]
    rcases ingestStep_table "ab" 0 [] entC9a with ⟨hc, _⟩ | ⟨_, row, _, hstep⟩
    · rw [show containsId [] (ingestId "ab" entC9a) = false from rfl] at hc
      exact absurd hc (by simp)
    · rw [hstep]
      rfl
  have hall : ∀ e ∈ [entC9b],
      containsId (ingestLogsCore [] [entC9a] "ab" 0).2 (ingestId "abc" e) = true := by
    intro e he
    rcases List.mem_singleton.mp he with rfl
    rw [hids]
    exact ingest_contains_all "ab" 0 [entC9a] [] entC9a (List.mem_singleton_self entC9a)
  have h2 := ingest_all_dup "abc" 0 [entC9b] (ingestLogsCore [] [entC9a] "ab" 0).2 hall
  refine ⟨hid, by decide, by rw [h1], ?_, by rw [h2]⟩
  rw [h2]
  rfl


/-! ## C1: total_count (corrected) -/

/-- Counterexample to C1 as stated: with two rows and a cursor past the
first, `total_count` is 1 (the rows past the cursor), not the full
filter-match count 2 — the code reuses the WHERE clause including the
cursor clause for the COUNT query. -/
theorem total_count_counterexample :
    ¬ ((queryLogsCore [sampleRow "a" 1, sampleRow "b" 2] LogFilters.none (some 10)
        (some "2:b")).total_count =
      (([sampleRow "a" 1, sampleRow "b" 2].filter
        (matchesFilters LogFilters.none)).length : Int)) := by
  decide

/-- C1 amended.  `total_count` re-runs the WHERE clause of the page query
including the cursor clause: it equals the number of rows matching the
filters AND the cursor predicate, and therefore equals the full
filter-match count exactly on cursorless calls. -/
theorem total_count_spec (t : List LogRow) (f : LogFilters) (l : Option Int)
    (c : Option String) :
    (queryLogsCore t f l c).total_count =
      ((t.filter (fun r => matchesFilters f r &&
        cursorClause (parseCursorPair c) r)).length : Int) ∧
    (c = Option.none →
      (queryLogsCore t f l c).total_count =
        ((t.filter (matchesFilters f)).length : Int)) := by
  constructor
  · rfl
  · rintro rfl
    show ((t.filter (queryPred f (parseCursorPair Option.none))).length : Int) = _
    have hf : t.filter (queryPred f (parseCursorPair Option.none)) =
        t.filter (matchesFilters f) := by
      apply List.filter_congr
      intro x _
      show (matchesFilters f x && cursorClause (Option.none, Option.none) x) =
        matchesFilters f x
      rw [cursorClause_none_fst _ _ rfl, Bool.and_true]
    rw [hf]

/-- Witness for C1 (amended) at a concrete input: a cursorless query over
one row reports the full filter-match count. -/
theorem total_count_spec_witness :
    ((Option.none : Option String) = Option.none) ∧
    (queryLogsCore [sampleRow "a" 1] LogFilters.none (some 10) Option.none).total_count =
      (([sampleRow "a" 1].filter (matchesFilters LogFilters.none)).length : Int) :=
  ⟨rfl, (total_count_spec [sampleRow "a" 1] LogFilters.none (some 10) Option.none).2 rfl⟩

/-! ## C6: limit+1 fetch and has_more -/

theorem usizeOfI32_small {n : Int} (h0 : 0 ≤ n) (h1 : n ≤ 1000) :
    usizeOfI32 n = n.toNat := by
  unfold usizeOfI32
  rw [Int.emod_eq_of_lt h0 (by omega)]

/-- C6.  With `0 ≤ limit ≤ 1000` the engine fetches `limit+1` rows:
`has_more` holds exactly when more than `limit` rows match (so the
returned page has `min limit M` rows, the extra row being discarded), the
next cursor is derived from the last returned row, and in particular
`limit = 1` gives `has_more = false` on exactly one matching row and
`has_more = true` on two or more. -/
theorem query_fetch_boundary (t : List LogRow) (f : LogFilters) (limit : Int)
    (c : Option String) (h0 : 0 ≤ limit) (h1 : limit ≤ 1000) :
    ((queryLogsCore t f (some limit) c).has_more =
      decide (limit.toNat < (t.filter (queryPred f (parseCursorPair c))).length)) ∧
    ((queryLogsCore t f (some limit) c).logs.length =
      min limit.toNat (t.filter (queryPred f (parseCursorPair c))).length) ∧
    (∀ x, (queryLogsCore t f (some limit) c).logs.getLast? = some x →
      (queryLogsCore t f (some limit) c).cursor = some (formatCursor x)) ∧
    ((t.filter (queryPred f (parseCursorPair c))).length = 1 → limit = 1 →
      (queryLogsCore t f (some limit) c).has_more = false) ∧
    (2 ≤ (t.filter (queryPred f (parseCursorPair c))).length → limit = 1 →
      (queryLogsCore t f (some limit) c).has_more = true) := by
  have hql : queryLimit (some limit) = limit := by
    simp only [queryLimit, Option.getD_some]
    omega
  have hM : (querySortedRows t f c).length =
      (t.filter (queryPred f (parseCursorPair c))).length :=
    (List.perm_insertionSort rowGe _).length_eq
  have hlim : limitRows (queryLimit (some limit) + 1) (querySortedRows t f c) =
      (querySortedRows t f c).take (limit.toNat + 1) := by
    rw [hql]
    unfold limitRows
    rw [if_neg (by omega)]
    congr 1
    omega
  have hlogs0 : (limitRows (queryLimit (some limit) + 1) (querySortedRows t f c)).length =
      min (limit.toNat + 1) (t.filter (queryPred f (parseCursorPair c))).length := by
    rw [hlim, List.length_take, hM]
  have hhm : (queryLogsCore t f (some limit) c).has_more =
      decide (limit.toNat < (t.filter (queryPred f (parseCursorPair c))).length) := by
    show decide (usizeOfI32 (queryLimit (some limit)) <
      (limitRows (queryLimit (some limit) + 1) (querySortedRows t f c)).length) = _
    rw [hlogs0, hql, usizeOfI32_small h0 h1]
    exact decide_eq_decide.mpr (by omega)
  have hlogs : (queryLogsCore t f (some limit) c).logs =
      if (queryLogsCore t f (some limit) c).has_more then
        (limitRows (queryLimit (some limit) + 1) (querySortedRows t f c)).dropLast
      else limitRows (queryLimit (some limit) + 1) (querySortedRows t f c) := rfl
  have hlen : (queryLogsCore t f (some limit) c).logs.length =
      min limit.toNat (t.filter (queryPred f (parseCursorPair c))).length := by
    rw [hlogs, hhm]
    by_cases hc : limit.toNat < (t.filter (queryPred f (parseCursorPair c))).length
    · rw [decide_eq_true hc, if_pos rfl, List.length_dropLast, hlogs0]
      omega
    · rw [decide_eq_false hc, if_neg (by simp), hlogs0]
      omega
  refine ⟨hhm, hlen, ?_, ?_, ?_⟩
  · intro x hx
    show (queryLogsCore t f (some limit) c).logs.getLast?.map formatCursor = _
    rw [hx]
    rfl
  · intro hone hl
    rw [hhm, hone, hl]
    decide
  · intro htwo hl
    rw [hhm, hl]
    simp only [decide_eq_true_eq]
    omega

/-- Witness for C6 at a concrete input: `limit = 1` against two matching
rows yields `has_more = true` (among the other conclusions). -/
theorem query_fetch_boundary_witness :
    ((0 : Int) ≤ 1 ∧ (1 : Int) ≤ 1000) ∧
    (((queryLogsCore [sampleRow "a" 1, sampleRow "b" 2] LogFilters.none (some 1)
        Option.none).has_more =
      decide ((1 : Int).toNat <
        ([sampleRow "a" 1, sampleRow "b" 2].filter
          (queryPred LogFilters.none (parseCursorPair Option.none))).length)) ∧
    (((queryLogsCore [sampleRow "a" 1, sampleRow "b" 2] LogFilters.none (some 1)
        Option.none).logs.length =
      min (1 : Int).toNat
        ([sampleRow "a" 1, sampleRow "b" 2].filter
          (queryPred LogFilters.none (parseCursorPair Option.none))).length) ∧
    (∀ x, (queryLogsCore [sampleRow "a" 1, sampleRow "b" 2] LogFilters.none (some 1)
        Option.none).logs.getLast? = some x →
      (queryLogsCore [sampleRow "a" 1, sampleRow "b" 2] LogFilters.none (some 1)
        Option.none).cursor = some (formatCursor x)) ∧
    (([sampleRow "a" 1, sampleRow "b" 2].filter
        (queryPred LogFilters.none (parseCursorPair Option.none))).length = 1 →
      (1 : Int) = 1 →
      (queryLogsCore [sampleRow "a" 1, sampleRow "b" 2] LogFilters.none (some 1)
        Option.none).has_more = false) ∧
    (2 ≤ ([sampleRow "a" 1, sampleRow "b" 2].filter
        (queryPred LogFilters.none (parseCursorPair Option.none))).length →
      (1 : Int) = 1 →
      (queryLogsCore [sampleRow "a" 1, sampleRow "b" 2] LogFilters.none (some 1)
        Option.none).has_more = true))) :=
  ⟨⟨by decide, by decide⟩,
   query_fetch_boundary [sampleRow "a" 1, sampleRow "b" 2] LogFilters.none 1
     Option.none (by decide) (by decide)⟩

/-! ## C2: total-order pagination

Part 1: decimal round-trip.  The next-page cursor is rendered with
`format!("{}:{}", ts, id)` (modelled by `toString` on `Int`) and parsed
back with `str::parse::<i64>` (modelled by `parse_i64`); we prove the
round-trip for every in-range timestamp. -/

theorem div10_eq_zero_iff {n : Nat} : n / 10 = 0 ↔ n < 10 := by
  constructor
  · intro h
    by_contra h10
    have h1 : 1 ≤ n / 10 := (Nat.le_div_iff_mul_le (by omega)).mpr (by omega)
    omega
  · exact Nat.div_eq_of_lt

theorem toDigitsCore_step (g n : Nat) (acc : List Char) :
    Nat.toDigitsCore 10 (g + 1) n acc =
      if n / 10 = 0 then Nat.digitChar (n % 10) :: acc
      else Nat.toDigitsCore 10 g (n / 10) (Nat.digitChar (n % 10) :: acc) := rfl

theorem toDigitsCore_acc (f : Nat) : ∀ (n : Nat) (acc : List Char),
    Nat.toDigitsCore 10 f n acc = Nat.toDigitsCore 10 f n [] ++ acc := by
  induction f with
  | zero => intro n acc; rfl
  | succ g ih =>
    intro n acc
    rw [toDigitsCore_step, toDigitsCore_step]
    by_cases h : n / 10 = 0
    · rw [if_pos h, if_pos h]
      rfl
    · rw [if_neg h, if_neg h, ih (n / 10) (Nat.digitChar (n % 10) :: acc),
        ih (n / 10) [Nat.digitChar (n % 10)], List.append_assoc]
      rfl

theorem toDigitsCore_fuel (f : Nat) : ∀ (g n : Nat) (acc : List Char),
    n < f → n < g → Nat.toDigitsCore 10 f n acc = Nat.toDigitsCore 10 g n acc := by
  induction f with
  | zero => intro g n acc hf _; omega
  | succ f' ih =>
    intro g n acc hf hg
    cases g with
    | zero => omega
    | succ g' =>
      rw [toDigitsCore_step, toDigitsCore_step]
      by_cases h : n / 10 = 0
      · rw [if_pos h, if_pos h]
      · rw [if_neg h, if_neg h]
        have h10 : 10 ≤ n := by
          by_contra h10
          exact h (div10_eq_zero_iff.mpr (by omega))
        have hlt : n / 10 < n := Nat.div_lt_self (by omega) (by omega)
        exact ih g' (n / 10) _ (by omega) (by omega)

theorem toDigits_base (n : Nat) (h : n / 10 = 0) :
    Nat.toDigits 10 n = [Nat.digitChar n] := by
  show Nat.toDigitsCore 10 (n + 1) n [] = _
  rw [toDigitsCore_step, if_pos h, Nat.mod_eq_of_lt (div10_eq_zero_iff.mp h)]

theorem toDigits_step (n : Nat) (h : ¬ n / 10 = 0) :
    Nat.toDigits 10 n = Nat.toDigits 10 (n / 10) ++ [Nat.digitChar (n % 10)] := by
  have h10 : 10 ≤ n := by
    by_contra h10
    exact h (div10_eq_zero_iff.mpr (by omega))
  have hlt : n / 10 < n := Nat.div_lt_self (by omega) (by omega)
  show Nat.toDigitsCore 10 (n + 1) n [] = _
  rw [toDigitsCore_step, if_neg h, toDigitsCore_acc]
  show _ = Nat.toDigitsCore 10 (n / 10 + 1) (n / 10) [] ++ _
  rw [toDigitsCore_fuel n (n / 10 + 1) (n / 10) [] (by omega) (by omega)]

theorem digitChar_val (d : Nat) (h : d < 10) : (Nat.digitChar d).toNat = 48 + d := by
  interval_cases d <;> rfl

theorem digitChar_isDigit (d : Nat) (h : d < 10) : (Nat.digitChar d).isDigit = true := by
  interval_cases d <;> decide

theorem toDigits_ne_nil (n : Nat) : Nat.toDigits 10 n ≠ [] := by
  by_cases h : n / 10 = 0
  · rw [toDigits_base n h]
    simp
  · rw [toDigits_step n h]
    simp

theorem toDigits_all_digits (n : Nat) : ∀ c ∈ Nat.toDigits 10 n, c.isDigit = true := by
  induction n using Nat.strong_induction_on with
  | _ n ih =>
    by_cases h : n / 10 = 0
    · rw [toDigits_base n h]
      intro c hc
      rcases List.mem_singleton.mp hc with rfl
      exact digitChar_isDigit n (div10_eq_zero_iff.mp h)
    · have h10 : 10 ≤ n := by
        by_contra h10
        exact h (div10_eq_zero_iff.mpr (by omega))
      rw [toDigits_step n h]
      intro c hc
      rcases List.mem_append.mp hc with hc | hc
      · exact ih (n / 10) (Nat.div_lt_self (by omega) (by omega)) c hc
      · rcases List.mem_singleton.mp hc with rfl
        exact digitChar_isDigit _ (Nat.mod_lt n (by omega))

theorem digitsVal_toDigits (n : Nat) : digitsVal (Nat.toDigits 10 n) = n := by
  induction n using Nat.strong_induction_on with
  | _ n ih =>
    by_cases h : n / 10 = 0
    · rw [toDigits_base n h]
      show 0 * 10 + ((Nat.digitChar n).toNat - 48) = n
      rw [digitChar_val n (div10_eq_zero_iff.mp h)]
      omega
    · have h10 : 10 ≤ n := by
        by_contra h10
        exact h (div10_eq_zero_iff.mpr (by omega))
      rw [toDigits_step n h, digitsVal, List.foldl_append]
      show digitsVal (Nat.toDigits 10 (n / 10)) * 10 +
        ((Nat.digitChar (n % 10)).toNat - 48) = n
      rw [ih (n / 10) (Nat.div_lt_self (by omega) (by omega)),
        digitChar_val _ (Nat.mod_lt n (by omega))]
      omega

theorem stringMk_data (s : String) : String.mk s.data = s := by
  cases s
  rfl

theorem stripSign_cons (c : Char) (r : List Char) :
    stripSign (c :: r) =
      if c = '+' then ((1 : Int), r)
      else if c = '-' then ((-1 : Int), r) else ((1 : Int), c :: r) := rfl

theorem stripSign_digit {c : Char} (r : List Char) (hc : c.isDigit = true) :
    stripSign (c :: r) = (1, c :: r) := by
  rw [stripSign_cons, if_neg, if_neg]
  · intro h
    rw [h] at hc
    exact absurd hc (by decide)
  · intro h
    rw [h] at hc
    exact absurd hc (by decide)

theorem parseIntIn_digits (lo hi : Int) (ds : List Char) (hne : ds ≠ [])
    (hd : ∀ c ∈ ds, c.isDigit = true) (hlo : lo ≤ (digitsVal ds : Int))
    (hhi : (digitsVal ds : Int) ≤ hi) :
    parseIntIn lo hi ds = some ((digitsVal ds : Int)) := by
  obtain ⟨c, r, rfl⟩ : ∃ c r, ds = c :: r := by
    cases ds with
    | nil => exact absurd rfl hne
    | cons c r => exact ⟨c, r, rfl⟩
  rw [parseIntIn, stripSign_digit r (hd c (List.mem_cons_self c r))]
  simp only [one_mul]
  rw [if_pos ⟨hne, List.all_eq_true.mpr hd⟩, if_pos ⟨hlo, hhi⟩]

theorem parseIntIn_neg_digits (lo hi : Int) (ds : List Char) (hne : ds ≠ [])
    (hd : ∀ c ∈ ds, c.isDigit = true) (hlo : lo ≤ -(digitsVal ds : Int))
    (hhi : -(digitsVal ds : Int) ≤ hi) :
    parseIntIn lo hi ('-' :: ds) = some (-(digitsVal ds : Int)) := by
  have hstrip : stripSign ('-' :: ds) = (-1, ds) := rfl
  rw [parseIntIn, hstrip]
  simp only [neg_mul, one_mul]
  rw [if_pos ⟨hne, List.all_eq_true.mpr hd⟩, if_pos ⟨hlo, hhi⟩]

theorem natRepr_data (m : Nat) : (Nat.repr m).data = Nat.toDigits 10 m := rfl

theorem toString_int_ofNat (m : Nat) : toString (Int.ofNat m) = Nat.repr m := rfl

theorem toString_int_negSucc (m : Nat) :
    toString (Int.negSucc m) = "-" ++ Nat.repr (m + 1) := rfl

theorem parse_i64_toString (n : Int) (h1 : -9223372036854775808 ≤ n)
    (h2 : n ≤ 9223372036854775807) : parse_i64 (toString n).data = some n := by
  cases n with
  | ofNat m =>
    rw [toString_int_ofNat, natRepr_data, parse_i64,
      parseIntIn_digits _ _ _ (toDigits_ne_nil m) (toDigits_all_digits m) ?_ ?_,
      digitsVal_toDigits m]
    · rfl
    · rw [digitsVal_toDigits m]
      omega
    · rw [digitsVal_toDigits m]
      have hm : (m : Int) = Int.ofNat m := rfl
      omega
  | negSucc m =>
    rw [toString_int_negSucc, String.data_append,
      show ("-" : String).data = ['-'] from rfl, natRepr_data]
    show parseIntIn _ _ ('-' :: Nat.toDigits 10 (m + 1)) = _
    rw [parseIntIn_neg_digits _ _ _ (toDigits_ne_nil (m + 1))
      (toDigits_all_digits (m + 1)) ?_ ?_, digitsVal_toDigits (m + 1)]
    · rw [Int.negSucc_eq]
      norm_num
    · rw [digitsVal_toDigits (m + 1)]
      have hm : Int.negSucc m = -((m : Int) + 1) := Int.negSucc_eq m
      push_cast
      omega
    · rw [digitsVal_toDigits (m + 1)]
      push_cast
      omega

theorem toString_int_no_colon (n : Int) : ':' ∉ (toString n).data := by
  cases n with
  | ofNat m =>
    rw [toString_int_ofNat, natRepr_data]
    intro hmem
    have := toDigits_all_digits m ':' hmem
    exact absurd this (by decide)
  | negSucc m =>
    rw [toString_int_negSucc, String.data_append,
      show ("-" : String).data = ['-'] from rfl, natRepr_data]
    intro hmem
    rcases List.mem_cons.mp hmem with h | h
    · exact absurd h (by decide)
    · have := toDigits_all_digits (m + 1) ':' h
      exact absurd this (by decide)

theorem splitChar_cons (sep c : Char) (cs : List Char) :
    splitChar sep (c :: cs) =
      if c = sep then [] :: splitChar sep cs
      else
        match splitChar sep cs with
        | [] => [[c]]
        | h :: t => (c :: h) :: t := rfl

theorem splitChar_no_sep (sep : Char) : ∀ {l : List Char}, sep ∉ l →
    splitChar sep l = [l] := by
  intro l
  induction l with
  | nil => intro _; rfl
  | cons c cs ih =>
    intro h
    rw [splitChar_cons, if_neg (fun hc => h (by rw [hc]; exact List.mem_cons_self sep cs)),
      ih (fun hc => h (List.mem_cons_of_mem c hc))]

theorem splitChar_append (sep : Char) : ∀ {A B : List Char}, sep ∉ A → sep ∉ B →
    splitChar sep (A ++ sep :: B) = [A, B] := by
  intro A
  induction A with
  | nil =>
    intro B _ hB
    show splitChar sep (sep :: B) = _
    rw [splitChar_cons, if_pos rfl, splitChar_no_sep sep hB]
  | cons c A' ih =>
    intro B hA hB
    show splitChar sep (c :: (A' ++ sep :: B)) = _
    rw [splitChar_cons, if_neg (fun hc => hA (by rw [hc]; exact List.mem_cons_self sep A')),
      ih (fun hc => hA (List.mem_cons_of_mem c hc)) hB]

theorem formatCursor_data (r : LogRow) :
    (formatCursor r).data = (toString r.ts).data ++ ':' :: r.id.data := by
  rw [formatCursor, String.data_append, String.data_append]
  simp [List.append_assoc]

theorem parseCursorPair_format (x : LogRow) (hcolon : ':' ∉ x.id.data)
    (h1 : -9223372036854775808 ≤ x.ts) (h2 : x.ts ≤ 9223372036854775807) :
    parseCursorPair (some (formatCursor x)) = (some x.ts, some x.id) := by
  have hsplit : splitChar ':' (formatCursor x).data =
      [(toString x.ts).data, x.id.data] := by
    rw [formatCursor_data]
    exact splitChar_append ':' (toString_int_no_colon x.ts) hcolon
  show (match splitChar ':' (formatCursor x).data with
    | [a, b] => (parse_i64 a, some (String.mk b))
    | _ => (Option.none, Option.none)) = _
  rw [hsplit]
  show (parse_i64 (toString x.ts).data, some (String.mk x.id.data)) = _
  rw [parse_i64_toString x.ts h1 h2, stringMk_data]

/-! Part 2: canonical sorted pages. -/

theorem sorted_insertion_rowGe (l : List LogRow) :
    List.Sorted rowGe (List.insertionSort rowGe l) := by
  haveI : IsTotal LogRow rowGe := ⟨rowGe_total⟩
  haveI : IsTrans LogRow rowGe := ⟨rowGe_trans⟩
  exact List.sorted_insertionSort rowGe l

theorem pairwise_rowGt_of_sorted {l : List LogRow} (hs : List.Sorted rowGe l)
    (hn : (l.map LogRow.id).Nodup) : l.Pairwise rowGt := by
  have hne : l.Pairwise (fun a b => a.id ≠ b.id) := List.pairwise_map.mp hn
  exact List.Pairwise.imp (fun h => rowGt_of_rowGe_ne h.1 h.2)
    (List.Pairwise.and hs hne)

theorem sorted_unique {l₁ l₂ : List LogRow} (hp : l₁.Perm l₂)
    (h1 : l₁.Pairwise rowGt) (h2 : l₂.Pairwise rowGt) : l₁ = l₂ := by
  haveI : IsAntisymm LogRow rowGt := ⟨fun a b h h' => (rowGt_asymm h h').elim⟩
  exact List.eq_of_perm_of_sorted hp h1 h2

theorem nodup_ids_sort_filter (t : List LogRow) (p : LogRow → Bool)
    (hids : (t.map LogRow.id).Nodup) :
    ((List.insertionSort rowGe (t.filter p)).map LogRow.id).Nodup := by
  rw [List.Perm.nodup_iff ((List.perm_insertionSort rowGe (t.filter p)).map LogRow.id)]
  exact List.Nodup.sublist (List.Sublist.map LogRow.id (List.filter_sublist t)) hids

theorem sortedMatching_pairwise (t : List LogRow) (f : LogFilters)
    (hids : (t.map LogRow.id).Nodup) : (sortedMatching t f).Pairwise rowGt :=
  pairwise_rowGt_of_sorted (sorted_insertion_rowGe _)
    (nodup_ids_sort_filter t (matchesFilters f) hids)

theorem querySorted_eq (t : List LogRow) (f : LogFilters) (c : Option String)
    (hids : (t.map LogRow.id).Nodup) :
    querySortedRows t f c =
      (sortedMatching t f).filter (cursorClause (parseCursorPair c)) := by
  apply sorted_unique
  · have h1 : (querySortedRows t f c).Perm (t.filter (queryPred f (parseCursorPair c))) :=
      List.perm_insertionSort rowGe _
    have h2 : ((sortedMatching t f).filter (cursorClause (parseCursorPair c))).Perm
        ((t.filter (matchesFilters f)).filter (cursorClause (parseCursorPair c))) :=
      List.Perm.filter _ (List.perm_insertionSort rowGe _)
    have h3 : (t.filter (matchesFilters f)).filter (cursorClause (parseCursorPair c)) =
        t.filter (queryPred f (parseCursorPair c)) := by
      rw [List.filter_filter]
      apply List.filter_congr
      intro x _
      show (cursorClause (parseCursorPair c) x && matchesFilters f x) =
        queryPred f (parseCursorPair c) x
      rw [Bool.and_comm]
      rfl
    rw [h3] at h2
    exact h1.trans h2.symm
  · exact pairwise_rowGt_of_sorted (sorted_insertion_rowGe _)
      (nodup_ids_sort_filter t (queryPred f (parseCursorPair c)) hids)
  · exact List.Pairwise.sublist (List.filter_sublist _)
      (sortedMatching_pairwise t f hids)

theorem filter_after_decomp {l₁ l₂ : List LogRow} {x : LogRow}
    (h : (l₁ ++ x :: l₂).Pairwise rowGt) :
    (l₁ ++ x :: l₂).filter (cursorClause (some x.ts, some x.id)) = l₂ := by
  rw [List.pairwise_append] at h
  obtain ⟨_, h₂, h₁₂⟩ := h
  obtain ⟨hx₂, _⟩ := List.pairwise_cons.mp h₂
  have hl₁ : l₁.filter (cursorClause (some x.ts, some x.id)) = [] := by
    rw [List.filter_eq_nil_iff]
    intro a ha hcl
    exact rowGt_asymm (h₁₂ a ha x (List.mem_cons_self x l₂)) hcl
  have hx : cursorClause (some x.ts, some x.id) x = false := by
    cases hcc : cursorClause (some x.ts, some x.id) x with
    | false => rfl
    | true => exact absurd hcc (rowGt_irrefl x)
  have hl₂ : l₂.filter (cursorClause (some x.ts, some x.id)) = l₂ :=
    List.filter_eq_self.mpr (fun a ha => hx₂ a ha)
  rw [List.filter_append, hl₁, List.filter_cons, if_neg (by rw [hx]; simp), hl₂]
  rfl

theorem filter_after_getElem {L : List LogRow} (hL : L.Pairwise rowGt) (m : Nat)
    (hm : m < L.length) :
    L.filter (cursorClause (some (L.get ⟨m, hm⟩).ts, some (L.get ⟨m, hm⟩).id)) =
      L.drop (m + 1) := by
  have hdecomp : L.take m ++ L.get ⟨m, hm⟩ :: L.drop (m + 1) = L := by
    rw [show L.get ⟨m, hm⟩ :: L.drop (m + 1) = L.drop m from
      (List.drop_eq_getElem_cons hm).symm, List.take_append_drop]
  have h' : (L.take m ++ L.get ⟨m, hm⟩ :: L.drop (m + 1)).Pairwise rowGt := by
    rw [hdecomp]
    exact hL
  have hres := filter_after_decomp h'
  rw [hdecomp] at hres
  exact hres

/-! Part 3: the pagination loop. -/

theorem paginate_go (t : List LogRow) (f : LogFilters) (k : Int)
    (hids : (t.map LogRow.id).Nodup)
    (hcolon : ∀ r ∈ t, ':' ∉ r.id.data)
    (hts : ∀ r ∈ t, -9223372036854775808 ≤ r.ts ∧ r.ts ≤ 9223372036854775807)
    (hk1 : 1 ≤ k) (hk2 : k ≤ 1000) :
    ∀ (fuel n : Nat) (cur : Option String),
      (sortedMatching t f).filter (cursorClause (parseCursorPair cur)) =
        (sortedMatching t f).drop n →
      (sortedMatching t f).length - n ≤ fuel * k.toNat →
      paginateAux t f k cur fuel = (sortedMatching t f).drop n := by
  intro fuel
  induction fuel with
  | zero =>
    intro n cur _ hfuel
    show ([] : List LogRow) = _
    rw [List.drop_eq_nil_of_le (by omega)]
  | succ fuel ih =>
    intro n cur hcur hfuel
    have hkn : 1 ≤ k.toNat := by omega
    have hql : queryLimit (some k) = k := by
      simp only [queryLimit, Option.getD_some]
      omega
    have hsorted : querySortedRows t f cur = (sortedMatching t f).drop n := by
      rw [querySorted_eq t f cur hids, hcur]
    have hlim : limitRows (queryLimit (some k) + 1) (querySortedRows t f cur) =
        ((sortedMatching t f).drop n).take (k.toNat + 1) := by
      rw [hql, hsorted, limitRows, if_neg (by omega)]
      congr 1
      omega
    have hdl : ((sortedMatching t f).drop n).length =
        (sortedMatching t f).length - n := List.length_drop n _
    have hhm : (queryLogsCore t f (some k) cur).has_more =
        decide (k.toNat < (sortedMatching t f).length - n) := by
      show decide (usizeOfI32 (queryLimit (some k)) <
        (limitRows (queryLimit (some k) + 1) (querySortedRows t f cur)).length) = _
      rw [hlim, List.length_take, hdl, hql, usizeOfI32_small (by omega) hk2]
      exact decide_eq_decide.mpr (by omega)
    have hunfold : paginateAux t f k cur (fuel + 1) =
        (if (queryLogsCore t f (some k) cur).has_more then
          (queryLogsCore t f (some k) cur).logs ++
            paginateAux t f k (queryLogsCore t f (some k) cur).cursor fuel
        else (queryLogsCore t f (some k) cur).logs) := rfl
    have hlogsdef : (queryLogsCore t f (some k) cur).logs =
        (if (queryLogsCore t f (some k) cur).has_more then
          (limitRows (queryLimit (some k) + 1) (querySortedRows t f cur)).dropLast
        else limitRows (queryLimit (some k) + 1) (querySortedRows t f cur)) := rfl
    by_cases hmore : k.toNat < (sortedMatching t f).length - n
    · have hhm' : (queryLogsCore t f (some k) cur).has_more = true := by
        rw [hhm]
        exact decide_eq_true hmore
      have hlogs : (queryLogsCore t f (some k) cur).logs =
          ((sortedMatching t f).drop n).take k.toNat := by
        rw [hlogsdef, hhm', if_pos rfl, hlim, List.dropLast_eq_take, List.length_take,
          hdl, List.take_take]
        congr 1
        omega
      have hm_idx : n + (k.toNat - 1) < (sortedMatching t f).length := by omega
      have hlast : (queryLogsCore t f (some k) cur).logs.getLast? =
          some ((sortedMatching t f).get ⟨n + (k.toNat - 1), hm_idx⟩) := by
        rw [hlogs, List.getLast?_eq_getElem?, List.length_take, hdl]
        rw [show min k.toNat ((sortedMatching t f).length - n) = k.toNat from by omega]
        rw [List.getElem?_take, if_pos (by omega), List.getElem?_drop,
          List.getElem?_eq_getElem (by omega)]
        rfl
      have hcursor : (queryLogsCore t f (some k) cur).cursor =
          some (formatCursor ((sortedMatching t f).get ⟨n + (k.toNat - 1), hm_idx⟩)) := by
        show (queryLogsCore t f (some k) cur).logs.getLast?.map formatCursor = _
        rw [hlast]
        rfl
      have hxmem : (sortedMatching t f).get ⟨n + (k.toNat - 1), hm_idx⟩ ∈ t := by
        have h1 : (sortedMatching t f).get ⟨n + (k.toNat - 1), hm_idx⟩ ∈
            sortedMatching t f := List.get_mem _ _ hm_idx
        have h2 := (List.mem_insertionSort rowGe).mp h1
        exact (List.mem_filter.mp h2).1
      have hbounds := hts _ hxmem
      have hrt := parseCursorPair_format _ (hcolon _ hxmem) hbounds.1 hbounds.2
      have hcurInv : (sortedMatching t f).filter
          (cursorClause (parseCursorPair (queryLogsCore t f (some k) cur).cursor)) =
          (sortedMatching t f).drop (n + k.toNat) := by
        rw [hcursor, hrt,
          filter_after_getElem (sortedMatching_pairwise t f hids) _ hm_idx,
          show n + (k.toNat - 1) + 1 = n + k.toNat from by omega]
      have hfuel' : (sortedMatching t f).length - (n + k.toNat) ≤ fuel * k.toNat := by
        rw [Nat.succ_mul] at hfuel
        omega
      have hih := ih (n + k.toNat) _ hcurInv hfuel'
      rw [hunfold, hhm', if_pos rfl, hlogs, hih]
      rw [show (sortedMatching t f).drop (n + k.toNat) =
        ((sortedMatching t f).drop n).drop k.toNat from
          (List.drop_drop k.toNat n _).symm]
      exact List.take_append_drop k.toNat _
    · have hhm' : (queryLogsCore t f (some k) cur).has_more = false := by
        rw [hhm]
        exact decide_eq_false hmore
      have hlogs : (queryLogsCore t f (some k) cur).logs =
          (sortedMatching t f).drop n := by
        rw [hlogsdef, hhm', if_neg (by simp), hlim]
        exact List.take_of_length_le (by omega)
      rw [hunfold, hhm', if_neg (by simp), hlogs]

/-- C2.  For any filter set over a fixed table with distinct (colon-free)
ids and in-range timestamps, repeatedly calling `query` with `limit = k`
(`1 ≤ k ≤ 1000`) and passing back the returned cursor reconstructs, once
concatenated, exactly the canonical result list: every filter-matching row
exactly once (a permutation of the matching rows — no duplicate, no
missing row) in strictly decreasing `(ts DESC, id DESC)` order; the
next-page predicate is the cursor clause `ts < cursor.ts OR (ts =
cursor.ts AND id < cursor.id)` embedded in `queryLogsCore`. -/
theorem query_pagination_total (t : List LogRow) (f : LogFilters) (k : Int)
    (fuel : Nat) (hids : (t.map LogRow.id).Nodup)
    (hcolon : ∀ r ∈ t, ':' ∉ r.id.data)
    (hts : ∀ r ∈ t, -9223372036854775808 ≤ r.ts ∧ r.ts ≤ 9223372036854775807)
    (hk1 : 1 ≤ k) (hk2 : k ≤ 1000)
    (hfuel : t.length ≤ fuel * k.toNat) :
    paginateAux t f k Option.none fuel = sortedMatching t f ∧
    (sortedMatching t f).Perm (t.filter (matchesFilters f)) ∧
    (sortedMatching t f).Pairwise rowGt := by
  refine ⟨?_, List.perm_insertionSort rowGe _, sortedMatching_pairwise t f hids⟩
  have h0 : (sortedMatching t f).filter (cursorClause (parseCursorPair Option.none)) =
      (sortedMatching t f).drop 0 := by
    rw [List.drop_zero]
    exact List.filter_eq_self.mpr (fun a _ => cursorClause_none_fst _ _ rfl)
  have hlen : (sortedMatching t f).length - 0 ≤ fuel * k.toNat := by
    have h1 : (sortedMatching t f).length = (t.filter (matchesFilters f)).length :=
      (List.perm_insertionSort rowGe _).length_eq
    have h2 : (t.filter (matchesFilters f)).length ≤ t.length :=
      List.length_filter_le _ _
    omega
  have hmain := paginate_go t f k hids hcolon hts hk1 hk2 fuel 0 Option.none h0 hlen
  rw [List.drop_zero] at hmain
  exact hmain

/-- Witness for C2 at a concrete input: a three-row table with a timestamp
tie, paginated with `limit = 1`. -/
theorem query_pagination_total_witness :
    (([sampleRow "b" 1, sampleRow "a" 2, sampleRow "c" 1].map LogRow.id).Nodup ∧
     (∀ r ∈ [sampleRow "b" 1, sampleRow "a" 2, sampleRow "c" 1], ':' ∉ r.id.data) ∧
     (∀ r ∈ [sampleRow "b" 1, sampleRow "a" 2, sampleRow "c" 1],
        -9223372036854775808 ≤ r.ts ∧ r.ts ≤ 9223372036854775807) ∧
     (1 : Int) ≤ 1 ∧ (1 : Int) ≤ 1000 ∧
     ([sampleRow "b" 1, sampleRow "a" 2, sampleRow "c" 1] : List LogRow).length ≤
       4 * (1 : Int).toNat) ∧
    (paginateAux [sampleRow "b" 1, sampleRow "a" 2, sampleRow "c" 1]
        LogFilters.none 1 Option.none 4 =
      sortedMatching [sampleRow "b" 1, sampleRow "a" 2, sampleRow "c" 1]
        LogFilters.none ∧
     (sortedMatching [sampleRow "b" 1, sampleRow "a" 2, sampleRow "c" 1]
        LogFilters.none).Perm
       ([sampleRow "b" 1, sampleRow "a" 2, sampleRow "c" 1].filter
         (matchesFilters LogFilters.none)) ∧
     (sortedMatching [sampleRow "b" 1, sampleRow "a" 2, sampleRow "c" 1]
        LogFilters.none).Pairwise rowGt) :=
  ⟨⟨by decide, by decide, by decide, by decide, by decide, by decide⟩,
   query_pagination_total [sampleRow "b" 1, sampleRow "a" 2, sampleRow "c" 1]
     LogFilters.none 1 4 (by decide) (by decide) (by decide) (by decide)
     (by decide) (by decide)⟩
